import Mathlib

/-!
Verification of the FA address-pipeline repository.

The Python sources are shallowly embedded as executable Lean definitions.
Pure text functions become functions on `String` / `List Char`; the batch /
country stores become total maps `Nat → String` (document id → status string);
the network and the external heuristic predicates become explicit inputs.

External Unicode primitives used by the sources (the Python `unicodedata`
module, `unidecode`, `str.lower`, `str.strip`, regex character classes) are
not repository code; they are abstracted into a record `PyUnicode` of
per-character functions.  Theorems about all `PyUnicode` instances cover the
real tables; a concrete instance `asciiU`, faithful to the real tables on the
ASCII range, is used to evaluate the pipeline on concrete ASCII inputs.
-/

namespace FA

/-- Per-character Unicode primitives used by the Python sources.
`category` models `unicodedata.category`; `nfkd` the per-character NFKD
decomposition used by `unicodedata.normalize("NFKD", ·)` (the canonical
reordering step only permutes characters of nonzero combining class, all of
which the pipeline deletes immediately afterwards, so it is observationally
irrelevant here); `combining` models `unicodedata.combining`; `lower` the
per-character `str.lower` mapping (which may expand to several characters);
`unidec` the per-character `unidecode` table; `isSpace` the regex `\s` /
`str.strip` whitespace class; `isDigit` the regex `\d` class; `isWordND` the
regex class `[^\W\d]` (word character that is not a digit). -/
structure PyUnicode where
  category : Char → String
  nfkd : Char → List Char
  combining : Char → Nat
  lower : Char → List Char
  unidec : Char → List Char
  isSpace : Char → Bool
  isDigit : Char → Bool
  isWordND : Char → Bool

/-- The blocks excluded by remove_disallowed_unicode: Phonetic Extensions
(U+1D00–U+1D7F), Phonetic Extensions Supplement (U+1D80–U+1DBF) and
Latin Extended-D (U+A720–U+A7FF). -/
def excludedBlock (c : Char) : Bool :=
  (0x1D00 ≤ c.toNat && c.toNat ≤ 0x1D7F) ||
  (0x1D80 ≤ c.toNat && c.toNat ≤ 0x1DBF) ||
  (0xA720 ≤ c.toNat && c.toNat ≤ 0xA7FF)

/-- The string " ,0123456789" or " 0123456789" depending on preserve_comma
(basic/address_normalization.py line 37, duplication/first_section.py line 17). -/
def allowedChars (preserveComma : Bool) : List Char :=
  if preserveComma then " ,0123456789".data else " 0123456789".data

/-- Python cat.startswith(letter) for a single-letter prefix: the first
character of cat is that letter. -/
def catStartsWith (cat : String) (letter : Char) : Bool :=
  match cat.data with
  | [] => false
  | c :: _ => c == letter

/-- One character of the admission filter: kept iff it is outside the excluded
blocks and is a letter (category L*), a mark (category M*), or one of the
explicitly allowed ASCII characters. -/
def keepChar (U : PyUnicode) (preserveComma : Bool) (c : Char) : Bool :=
  if excludedBlock c then false
  else if catStartsWith (U.category c) 'L' then true
  else if catStartsWith (U.category c) 'M' then true
  else (allowedChars preserveComma).contains c

/-- remove_disallowed_unicode from basic/address_normalization.py (lines
19–62); the copies in duplication/first_section.py and duplication/penalty.py
are character-for-character the same filter. -/
def remove_disallowed_unicode (U : PyUnicode) (text : String)
    (preserveComma : Bool := false) : String :=
  String.mk (text.data.filter (keepChar U preserveComma))

/-- Remove a maximal trailing run of characters satisfying p (the tail half of
Python str.strip). -/
def stripTrail (p : Char → Bool) : List Char → List Char
  | [] => []
  | c :: rest =>
    match stripTrail p rest with
    | [] => if p c then [] else [c]
    | r :: rs => c :: r :: rs

/-- Python str.strip with the character class p: drop a maximal leading and a
maximal trailing run of p-characters. -/
def pyStrip (p : Char → Bool) (l : List Char) : List Char :=
  stripTrail p (l.dropWhile p)

/-- Python str.strip() (no arguments) on a string: strip whitespace. -/
def pyStripWs (U : PyUnicode) (s : String) : String :=
  String.mk (pyStrip U.isSpace s.data)

/-- Splitter returning (current group, later groups); used both for Python
str.split(sep) (keeping empty parts) and str.split() (dropping them). -/
def splitKeep (p : Char → Bool) : List Char → List Char × List (List Char)
  | [] => ([], [])
  | c :: rest =>
    let r := splitKeep p rest
    if p c then ([], r.1 :: r.2) else (c :: r.1, r.2)

/-- All groups of splitKeep, i.e. Python s.split(sep) with empty parts kept. -/
def splitAll (p : Char → Bool) (l : List Char) : List (List Char) :=
  (splitKeep p l).1 :: (splitKeep p l).2

/-- The nonempty groups, i.e. Python s.split() semantics. -/
def tokensP (p : Char → Bool) (l : List Char) : List (List Char) :=
  (splitAll p l).filter (fun t => !t.isEmpty)

/-- Python s.split() (whitespace split, empty parts dropped). -/
def pySplitWs (U : PyUnicode) (s : String) : List String :=
  (tokensP U.isSpace s.data).map String.mk

/-- Python str.lower() modelled per character. -/
def pyLower (U : PyUnicode) (l : List Char) : List Char :=
  l.flatMap U.lower

/-- A substring test: needle occurs contiguously in hay (Python `in`). -/
def listContainsSub (needle hay : List Char) : Bool :=
  hay.tails.any (needle.isPrefixOf ·)

/-- Python `needle in hay` on strings. -/
def strContains (hay needle : String) : Bool :=
  listContainsSub needle.data hay.data

/-- A concrete PyUnicode faithful to the real Python tables on the ASCII
range: ASCII letters are Lu/Ll, digits Nd, space Zs, controls Cc; ASCII
punctuation is mapped to Po, which agrees with the real tables on everything
the embedded code inspects (only the L*/M* prefixes matter).  NFKD, lower,
unidecode are the identity on ASCII except for uppercasing.  Non-ASCII
characters (which none of the concrete inputs below contain) are classified
as So. -/
def asciiCategory (c : Char) : String :=
  if 128 ≤ c.toNat then "So"
  else if 'A' ≤ c && c ≤ 'Z' then "Lu"
  else if 'a' ≤ c && c ≤ 'z' then "Ll"
  else if '0' ≤ c && c ≤ '9' then "Nd"
  else if c == ' ' then "Zs"
  else if c.toNat < 32 || c.toNat == 127 then "Cc"
  else "Po"

/-- The ASCII instantiation of the Unicode primitives (see asciiCategory). -/
def asciiU : PyUnicode where
  category := asciiCategory
  nfkd := fun c => [c]
  combining := fun _ => 0
  lower := fun c => [c.toLower]
  unidec := fun c => [c]
  isSpace := fun c => c == ' ' || c == '\t' || c == '\n' || c == '\r' ||
    c == Char.ofNat 11 || c == Char.ofNat 12
  isDigit := fun c => '0' ≤ c && c ≤ '9'
  isWordND := fun c => ('A' ≤ c && c ≤ 'Z') || ('a' ≤ c && c ≤ 'z') || c == '_'

/-- Python " ".join on word lists (character level). -/
def joinWords : List (List Char) → List Char
  | [] => []
  | [w] => w
  | w :: w2 :: ws => w ++ ' ' :: joinWords (w2 :: ws)

/-! ## extract_first_section (duplication/first_section.py lines 40–78) -/

/-- extract_first_section from duplication/first_section.py: admission filter
preserving commas, strip, lstrip(","), strip, split on commas, merge of the
first two segments when the first is shorter than 4 characters, then drop
whitespace-split words of length at most 2, lowercase and rejoin. -/
def extract_first_section (U : PyUnicode) (address : String) : String :=
  if address.data.isEmpty || (pyStripWs U address).data.isEmpty then ""
  else
    let addr := remove_disallowed_unicode U address true
    if (pyStripWs U addr).data.isEmpty then ""
    else
      let normalizedAddr :=
        pyStrip U.isSpace (((pyStripWs U addr).data).dropWhile (· == ','))
      if normalizedAddr.isEmpty then ""
      else
        let parts := splitAll (· == ',') normalizedAddr
        let firstRaw := pyStrip U.isSpace (parts.headD [])
        let firstSection :=
          if firstRaw.length < 4 && 1 < parts.length then
            pyStrip U.isSpace
              (firstRaw ++ ' ' :: pyStrip U.isSpace (parts.getD 1 []))
          else firstRaw
        let words := tokensP U.isSpace firstSection
        let filteredWords := words.filter (fun w => 2 < w.length)
        String.mk (pyStrip U.isSpace (pyLower U (joinWords filteredWords)))

/-- The concrete address of spec §8. -/
def lebanonAddress : String :=
  "31, Street 103, Tall Al Zaatar, Dekwaneh, Matn District, Mount Lebanon Governorate, 2703, Lebanon"

/-! ## Batch store (address_validator.py) and country store (main_osm.py)

The MongoDB collections are modelled as total maps from document id to status
string.  update_one({'_id': id}, {'$set': {'status': status}}) matches by id
only and overwrites the status field unconditionally. -/

/-- AddressValidator.update_batch_status (address_validator.py lines 111–116):
an unconditional write of the status field of the batch with the given id. -/
def update_batch_status (store : Nat → String) (batchId : Nat) (status : String) :
    Nat → String :=
  fun j => if j = batchId then status else store j

/-- AddressValidator.get_address_batches (lines 100–109): the candidate
batches are those whose stored status is origin (the read-time filter; the
limit argument and country filter are irrelevant to the claims). -/
def get_address_batches (store : Nat → String) (batchIds : List Nat) : List Nat :=
  batchIds.filter (fun b => store b == "origin")

/-- The first store action of AddressValidator.process_batch (line 411): set
the batch status to checking, whatever it was before. -/
def process_batch_claim (store : Nat → String) (batchId : Nat) : Nat → String :=
  update_batch_status store batchId "checking"

/-- MainOSMProcessor.update_country_status (main_osm.py lines 41–46): the same
unconditional status write on the country_status collection. -/
def update_country_status (store : Nat → String) (countryId : Nat) (status : String) :
    Nat → String :=
  fun j => if j = countryId then status else store j

/-- One iteration of MainOSMProcessor.run_continuous_processing (main_osm.py
lines 131–174) for a claimed country: the status is set to processing, then
if no OSM file is found the country is skipped with no further status write
(the log text claims origin is kept, but no reset happens); otherwise
processing runs and the status becomes completed on success and failed on a
processing error. -/
def run_country_step (store : Nat → String) (countryId : Nat)
    (fileFound : Bool) (processOk : Bool) : Nat → String :=
  let s1 := update_country_status store countryId "processing"
  if !fileFound then s1
  else if processOk then update_country_status s1 countryId "completed"
  else update_country_status s1 countryId "failed"

/-! ## The per-id processing loop of AddressValidator.process_batch
(address_validator.py lines 405–550) and query_nominatim (lines 118–167).

The network is an explicit input: for each id, a function giving the outcome
of each successive HTTP attempt.  The decision-relevant fields of a Nominatim
result are its place_rank plus the verdicts of the external collaborators:
looks_like_address and validate_address_region (pluggable heuristics the
validator calls but does not define, spec §4.3), calculate_score over the
bounding box, and check_with_nominatim.  Modelled from the spec:
check_with_nominatim (basic/address_score.py, absent from src/) issues one
free-text geocoder query against the cleaned text and returns a binary 0/1
confirmation used as the score.  The display-name text cleanup performs no
store writes, no requests and no sleeps, so it does not appear in the event
trace. -/

/-- One observable action of the validator towards the geocoder: an outbound
request, or a time.sleep of the given number of seconds. -/
inductive Ev where
  | req
  | sleep (secs : Nat)
deriving DecidableEq

/-- The decision-relevant content of one Nominatim lookup result.  The two
scores are carried in tenths (an exact integer rescaling of the Python
floats, whose only values are the ladder 1.0/0.9/0.8/0.7/0.3 and the binary
0/1 corroboration): 9 stands for 0.9, so the Python test score < 0.9 is
score < 9 here. -/
structure NomResult where
  place_rank : Int
  looksLikeAddress : Bool
  regionOk : Bool
  score1 : Int
  score : Int

/-- Outcome of one HTTP attempt: a request exception (retryable), or a
successful response carrying an optional result (None models the empty
result list, which is saved to the side file and yields no result). -/
inductive NetAttempt where
  | err
  | ok (result : Option NomResult)

/-- The script of one OSM id: whether its type prefix is one of n/w/r, and
the outcome of each successive network attempt for it. -/
structure IdScript where
  typeOk : Bool
  net : Nat → NetAttempt

/-- The retry loop of query_nominatim: at most remaining further attempts,
the next one being attempt number attempt (0-based).  A successful response
returns immediately; an exception on any attempt but the last sleeps
(attempt+1)*2 seconds (2, 4 seconds) and retries; the last attempt gives up
with no result.  Returns the result and the emitted events. -/
def queryGo (net : Nat → NetAttempt) (attempt : Nat) :
    Nat → Option NomResult × List Ev
  | 0 => (none, [])
  | remaining + 1 =>
    match net attempt with
    | .ok r => (r, [.req])
    | .err =>
      if remaining == 0 then (none, [.req])
      else
        let rest := queryGo net (attempt + 1) remaining
        (rest.1, .req :: .sleep ((attempt + 1) * 2) :: rest.2)

/-- query_nominatim (lines 118–167): returns None with no request when the
id type is not n/w/r, else runs the retry loop with max_retries = 3. -/
def query_nominatim (s : IdScript) : Option NomResult × List Ev :=
  if s.typeOk then queryGo s.net 0 3 else (none, [])

/-- The body of the per-id loop of process_batch (lines 422–542): lookup;
skip on no result; skip when the cleaned display name fails
looks_like_address or validate_address_region; skip when place_rank ≤ 20;
otherwise issue the corroboration query (check_with_nominatim), skip when
its score is below 0.9, else persist the record and sleep 1 second.
Returns whether the id was persisted, and the events in order. -/
def process_id (s : IdScript) : Bool × List Ev :=
  match (query_nominatim s).1 with
  | none => (false, (query_nominatim s).2)
  | some r =>
    if !r.looksLikeAddress then (false, (query_nominatim s).2)
    else if !r.regionOk then (false, (query_nominatim s).2)
    else if r.place_rank ≤ 20 then (false, (query_nominatim s).2)
    else if r.score < 9 then (false, (query_nominatim s).2 ++ [Ev.req])
    else (true, ((query_nominatim s).2 ++ [Ev.req]) ++ [Ev.sleep 1])

/-- process_batch over a claimed batch: status write to checking, the per-id
loop in order, status write to checked.  Returns the final store, the number
of persisted ids, and the event trace. -/
def process_batch_run (store : Nat → String) (batchId : Nat)
    (ids : List IdScript) : (Nat → String) × Nat × List Ev :=
  let s1 := update_batch_status store batchId "checking"
  let evs := ids.flatMap (fun s => (process_id s).2)
  let saved := (ids.filter (fun s => (process_id s).1)).length
  let s2 := update_batch_status s1 batchId "checked"
  (s2, saved, evs)

/-- Scanner for the rate-limit property: walks the event list and checks
that before every request except the first, the sleeps since the previous
request sum to at least 1 second. -/
def gapsGo : List Ev → Bool → Nat → Bool
  | [], _, _ => true
  | Ev.sleep n :: rest, seen, acc => gapsGo rest seen (acc + n)
  | Ev.req :: rest, seen, acc => (!seen || decide (1 ≤ acc)) && gapsGo rest true 0

/-- Every pair of consecutive requests in the trace is separated by at least
1 second of sleeping. -/
def minGapOneSecond (evs : List Ev) : Bool :=
  gapsGo evs false 0

/-- A lookup that succeeds with a result failing the looks_like_address
heuristic: the id is skipped with no sleep. -/
def resultNotAddress : NomResult :=
  { place_rank := 30, looksLikeAddress := false, regionOk := true,
    score1 := 10, score := 10 }

/-- Script of an id whose lookup immediately returns resultNotAddress. -/
def scriptNotAddress : IdScript :=
  { typeOk := true, net := fun _ => .ok (some resultNotAddress) }

/-- A result that passes every gate (rank 21 > 20, score 1.0 ≥ 0.9). -/
def resultAccepted : NomResult :=
  { place_rank := 21, looksLikeAddress := true, regionOk := true,
    score1 := 10, score := 10 }

/-- Script of an id that is accepted and persisted. -/
def scriptAccepted : IdScript :=
  { typeOk := true, net := fun _ => .ok (some resultAccepted) }

/-- A result with maximal score but place_rank exactly 20 (the reject
threshold). -/
def resultLowRank : NomResult :=
  { place_rank := 20, looksLikeAddress := true, regionOk := true,
    score1 := 10, score := 10 }

/-- Script of an id whose result has place_rank 20. -/
def scriptLowRank : IdScript :=
  { typeOk := true, net := fun _ => .ok (some resultLowRank) }

/-- Script of an id whose every network attempt raises. -/
def scriptAllErr : IdScript :=
  { typeOk := true, net := fun _ => .err }

/-! ## Extractors (western_sahara_extractor.py, palestine_extractor.py)

OSM ways are embedded as tag lists plus node lists.  Coordinates are carried
in centidegrees (integer hundredths of a degree): every boundary constant in
both sources has at most two decimal places, so the rescaling by 100 is
exact and preserves every comparison. -/

/-- An axis-aligned lon/lat box, bounds in centidegrees. -/
structure Region where
  minLon : Int
  maxLon : Int
  minLat : Int
  maxLat : Int

/-- One constituent node of a way: validity of its location and its
coordinates in centidegrees. -/
structure OsmNode where
  valid : Bool
  lon : Int
  lat : Int

/-- An OSM way: its id, its tags as key/value pairs in order, and its nodes. -/
structure OsmWay where
  id : Nat
  tags : List (String × String)
  nodes : List OsmNode

/-- Containment in a box, with inclusive bounds as in the chained Python
comparisons. -/
def inRegion (r : Region) (lon lat : Int) : Bool :=
  decide (r.minLon ≤ lon ∧ lon ≤ r.maxLon ∧ r.minLat ≤ lat ∧ lat ≤ r.maxLat)

/-- The Western Sahara include boxes (western_sahara_extractor.py lines
38–66), in centidegrees: for example -1320 is the source's -13.20. -/
def western_sahara_regions : List Region :=
  [⟨-1320, -1318, 2715, 2717⟩,
   ⟨-1595, -1593, 2371, 2373⟩,
   ⟨-1450, -1448, 2612, 2614⟩,
   ⟨-1168, -1166, 2673, 2675⟩,
   ⟨-1248, -1246, 2258, 2260⟩,
   ⟨-1062, -1060, 2617, 2619⟩,
   ⟨-1102, -1100, 2517, 2519⟩,
   ⟨-1050, -900, 2200, 2550⟩,
   ⟨-1600, -1580, 2360, 2380⟩]

/-- The Moroccan exclusion boxes (lines 86–93), in centidegrees. -/
def moroccan_exclusions : List Region :=
  [⟨-1000, -100, 2750, 3600⟩,
   ⟨-1000, -100, 3100, 3500⟩,
   ⟨-800, -400, 2900, 3200⟩]

/-- is_in_western_sahara (lines 68–100): inside some include box and inside
no exclusion box. -/
def is_in_western_sahara (lon lat : Int) : Bool :=
  (western_sahara_regions.any (fun r => inRegion r lon lat)) &&
  !(moroccan_exclusions.any (fun r => inRegion r lon lat))

/-- The Palestinian Territory include boxes (palestine_extractor.py lines
37–63), in centidegrees; no exclusion boxes are configured. -/
def palestine_regions : List Region :=
  [⟨3420, 3457, 3122, 3158⟩,
   ⟨3515, 3525, 3185, 3195⟩,
   ⟨3515, 3525, 3165, 3175⟩,
   ⟨3505, 3515, 3148, 3158⟩,
   ⟨3520, 3530, 3220, 3225⟩,
   ⟨3525, 3535, 3245, 3250⟩,
   ⟨3500, 3510, 3230, 3235⟩,
   ⟨3495, 3505, 3218, 3223⟩,
   ⟨3540, 3550, 3185, 3190⟩,
   ⟨3500, 3560, 3200, 3255⟩,
   ⟨3500, 3560, 3170, 3200⟩,
   ⟨3500, 3560, 3130, 3170⟩]

/-- is_in_palestine (lines 65–74). -/
def is_in_palestine (lon lat : Int) : Bool :=
  palestine_regions.any (fun r => inRegion r lon lat)

/-- Tag-key membership, Python key in tags. -/
def tagsHaveKey (tags : List (String × String)) (k : String) : Bool :=
  tags.any (fun t => t.1 == k)

/-- Python tags.get(k, ""). -/
def tagGet (tags : List (String × String)) (k : String) : String :=
  ((tags.find? (fun t => t.1 == k)).map (fun t => t.2)).getD ""

/-- The address-ish tag keys tested by has_address_info (identical lists in
both extractors). -/
def address_tag_keys : List String :=
  ["addr:street", "addr:city", "addr:town", "addr:village",
   "addr:suburb", "addr:district", "addr:region", "addr:postcode",
   "name", "amenity", "shop", "office", "tourism"]

/-- has_address_info: at least one address-ish key present. -/
def has_address_info (tags : List (String × String)) : Bool :=
  address_tag_keys.any (fun k => tagsHaveKey tags k)

/-- The Western Sahara indicator substrings (lines 121–126). -/
def ws_indicator_words : List String :=
  ["western sahara", "sahara occidental", "sadr", "sahrawi",
   "laayoune", "el aaiun", "العيون",
   "dakhla", "ad dakhla", "الداخلة",
   "tifariti", "bir lehlou", "aousserd"]

/-- The Moroccan indicator substrings (lines 129–133). -/
def moroccan_exclusion_words : List String :=
  ["morocco", "maroc", "المغرب", "royaume du maroc",
   "casablanca", "rabat", "marrakech", "fes", "tangier",
   "agadir", "meknes", "oujda", "kenitra", "tetouan"]

/-- has_western_sahara_indicators (lines 115–151): scan tag values in order;
a value containing a Moroccan indicator rejects the feature, a value
containing a Western Sahara indicator accepts it, otherwise continue. -/
def has_western_sahara_indicators (U : PyUnicode) :
    List (String × String) → Bool
  | [] => false
  | t :: rest =>
    let tagValue := String.mk (pyLower U t.2.data)
    if moroccan_exclusion_words.any (fun w => strContains tagValue w) then false
    else if ws_indicator_words.any (fun w => strContains tagValue w) then true
    else has_western_sahara_indicators U rest

/-- The generic building values both extractors skip unless meaningful tags
are present. -/
def skip_buildings : List String := ["yes", "unclassified", "other"]

/-- The meaningful tag keys that rescue a generic building. -/
def meaningful_tag_keys : List String := ["name", "amenity", "shop", "office"]

/-- WesternSaharaAddressProcessor.way (lines 153–192), written as the
conjunction equivalent to its early returns: building tag present, address
info present, nonempty node list, some valid node geometrically inside
Western Sahara or (fallback) a Western Sahara indicator in a tag value, and
not a generic building without meaningful tags. -/
def wsWay (U : PyUnicode) (w : OsmWay) : Bool :=
  tagsHaveKey w.tags "building" &&
  has_address_info w.tags &&
  !w.nodes.isEmpty &&
  (w.nodes.any (fun n => n.valid && is_in_western_sahara n.lon n.lat) ||
    has_western_sahara_indicators U w.tags) &&
  !(skip_buildings.contains (tagGet w.tags "building") &&
    !(meaningful_tag_keys.any (fun k => tagsHaveKey w.tags k)))

/-- PalestineAddressProcessor.way (lines 89–121), same shape without the
indicator fallback. -/
def palWay (w : OsmWay) : Bool :=
  tagsHaveKey w.tags "building" &&
  has_address_info w.tags &&
  !w.nodes.isEmpty &&
  (w.nodes.any (fun n => n.valid && is_in_palestine n.lon n.lat)) &&
  !(skip_buildings.contains (tagGet w.tags "building") &&
    !(meaningful_tag_keys.any (fun k => tagsHaveKey w.tags k)))

/-- A building far outside every Western Sahara box (coordinates 0, 0) whose
name tag contains the indicator laayoune. -/
def wsIndicatorOnlyWay : OsmWay :=
  { id := 1,
    tags := [("building", "hotel"), ("name", "laayoune hotel")],
    nodes := [⟨true, 0, 0⟩] }

/-- A house in the Gaza Strip box (34.30, 31.30) with a street tag. -/
def gazaWay : OsmWay :=
  { id := 2,
    tags := [("building", "house"), ("addr:street", "omar almukhtar")],
    nodes := [⟨true, 3430, 3130⟩] }

/-! ## Canonicalizer (basic/address_normalization.py lines 65–108) -/

/-- The punctuation class of the regex on line 81.  The pattern is two
adjacent Python string literals (a raw one ending at the quote escaped as
the class member, then an ordinary one), so the apparent double backslash is
an escape of the bar character: the class holds the bar but not the
backslash, and the three apostrophes are one member.  Members by codepoint:
- : , . ; ! ? ( ) braces brackets quote apostrophe / bar * _ = + < > @ # ^ &. -/
def punct_chars : List Char :=
  [45, 58, 44, 46, 59, 33, 63, 40, 41, 123, 125, 91, 93, 34, 39,
   47, 124, 42, 95, 61, 43, 60, 62, 64, 35, 94, 38].map Char.ofNat

/-- The two modifier letters excluded on line 104 (U+02BB, U+02BC). -/
def excluded_modifier_letters : List Char :=
  [Char.ofNat 0x02BB, Char.ofNat 0x02BC]

/-- Python re.sub over whitespace runs: replace each maximal run of
whitespace characters with one space. -/
def collapseWs (U : PyUnicode) : List Char → List Char
  | [] => []
  | c :: rest =>
    if U.isSpace c then ' ' :: collapseWs U (rest.dropWhile U.isSpace)
    else c :: collapseWs U rest
termination_by l => l.length
decreasing_by
  · exact Nat.lt_succ_of_le ((List.dropWhile_sublist _).length_le)
  · exact Nat.lt_succ_self _

/-- Python re.sub over digit runs (line 92): replace each maximal run of
digit characters with one space. -/
def digitRunsToSpace (U : PyUnicode) : List Char → List Char
  | [] => []
  | c :: rest =>
    if U.isDigit c then ' ' :: digitRunsToSpace U (rest.dropWhile U.isDigit)
    else c :: digitRunsToSpace U rest
termination_by l => l.length
decreasing_by
  · exact Nat.lt_succ_of_le ((List.dropWhile_sublist _).length_le)
  · exact Nat.lt_succ_self _

/-- NFKD decomposition applied per character (line 75). -/
def nfkdStr (U : PyUnicode) (l : List Char) : List Char :=
  l.flatMap U.nfkd

/-- Removal of combining characters (line 77). -/
def stripCombining (U : PyUnicode) (l : List Char) : List Char :=
  l.filter (fun c => U.combining c == 0)

/-- Replacement of the fixed punctuation class with spaces (line 81). -/
def punctToSpace (l : List Char) : List Char :=
  l.map (fun c => if punct_chars.contains c then ' ' else c)

/-- Per-character unidecode transliteration (line 89). -/
def unidecStr (U : PyUnicode) (l : List Char) : List Char :=
  l.flatMap U.unidec

/-- Replacement of commas with spaces (line 96). -/
def commaToSpace (l : List Char) : List Char :=
  l.map (fun c => if c == ',' then ' ' else c)

/-- The composite of the per-character stages before whitespace collapsing:
admission filter, NFKD, combining-mark removal, lowercasing, punctuation to
space (lines 71–81). -/
def preStages (U : PyUnicode) (l : List Char) : List Char :=
  punctToSpace (pyLower U (stripCombining U (nfkdStr U (l.filter (keepChar U false)))))

/-- Whether a list starts with a separator character. -/
def leadSpace (p : Char → Bool) : List Char → Bool
  | [] => false
  | c :: _ => p c

/-- The strip class of line 85: space, hyphen, colon. -/
def stripSpaceDashColon (c : Char) : Bool :=
  c == ' ' || c == '-' || c == ':'

/-- normalize_address_for_deduplication (basic/address_normalization.py
lines 65–108).  set(parts) is modelled as List.dedup: the Python set
iteration order is unspecified, but the final character sort makes the
output independent of it. -/
def normalize_address_for_deduplication (U : PyUnicode) (addr : String) : String :=
  if addr.data.isEmpty || (pyStripWs U addr).data.isEmpty then ""
  else
    let text4 := preStages U addr.data
    let text5 := collapseWs U text4
    let text6 := pyStrip stripSpaceDashColon text5
    let text7 := unidecStr U text6
    let text8 := digitRunsToSpace U text7
    let cleaned := commaToSpace text8
    let parts := tokensP (fun c => c == ' ') cleaned
    let parts2 := parts.filter (fun p => 3 < p.length)
    let uniqueWords := parts2.dedup
    let dedupText := joinWords uniqueWords
    let letters := dedupText.filter U.isWordND
    let lowered :=
      (letters.filter (fun c => !excluded_modifier_letters.contains c)).map U.lower
    String.mk (List.insertionSort (· ≤ ·) lowered).flatten

/-- A list of words joined by single spaces, as a String (the word-level
inputs of the order-invariance property). -/
def joinWordsStr (ws : List String) : String :=
  String.mk (joinWords (ws.map String.data))

/-- The token list reached at the parts stage of the canonicalizer (line
97), as a function of the raw character list. -/
def partsOf (U : PyUnicode) (l : List Char) : List (List Char) :=
  tokensP (fun c => c == ' ')
    (commaToSpace (digitRunsToSpace U (unidecStr U
      (pyStrip stripSpaceDashColon (collapseWs U (preStages U l))))))

/-- The tail of the canonicalizer from the parts stage on (lines 98–106):
length filter, set, join, letter extraction, modifier-letter exclusion,
lowercase, sort, concatenate. -/
def fingerprintFromParts (U : PyUnicode) (parts : List (List Char)) : String :=
  String.mk (List.insertionSort (· ≤ ·)
    ((((joinWords ((parts.filter (fun p => 3 < p.length)).dedup)).filter
          U.isWordND).filter
        (fun c => !excluded_modifier_letters.contains c)).map U.lower)).flatten

/-- The per-word contribution to the parts stage when the input is a
space-join of words. -/
def wordFingerprintTokens (U : PyUnicode) (w : List Char) : List (List Char) :=
  (tokensP U.isSpace (preStages U w)).flatMap
    (fun t => tokensP (fun c => c == ' ')
      (commaToSpace (digitRunsToSpace U (unidecStr U t))))

/-! ## DuplicatePenaltyScorer (duplication/penalty.py) -/

/-- normalize_address (duplication/penalty.py lines 4–10): whitespace
normalization, lowercase, comma/semicolon/hyphen to space, collapse. -/
def normalize_address (U : PyUnicode) (addrStr : String) : String :=
  if addrStr.data.isEmpty then ""
  else
    let normalized := pyLower U (joinWords (tokensP U.isSpace addrStr.data))
    let replaced := normalized.map
      (fun c => if c == ',' || c == ';' || c == '-' then ' ' else c)
    String.mk (joinWords (tokensP U.isSpace replaced))

/-- calculate_address_duplicates_penalty (duplication/penalty.py lines
39–106).  Its inline first-section computation is character-for-character
the body of extract_first_section (first_section.py documents itself as the
same logic), whose every early exit returns the empty string; the loop here
appends only nonempty sections, so the list comprehension is expressed
through extract_first_section.  The dict tally is expressed as a sum of
per-distinct-key counts. -/
def calculate_address_duplicates_penalty (U : PyUnicode)
    (addressVariations : List String) : ℚ :=
  let normalizedAddresses := addressVariations.filterMap (fun addr =>
    if !addr.data.isEmpty && !(pyStripWs U addr).data.isEmpty then
      some (normalize_address U addr)
    else none)
  let duplicatesAddresses :=
    normalizedAddresses.length - normalizedAddresses.dedup.length
  let penalty1 : ℚ :=
    if 0 < duplicatesAddresses then 0 + duplicatesAddresses * (5 / 100 : ℚ) else 0
  let firstSections := addressVariations.filterMap (fun addr =>
    let v := extract_first_section U addr
    if v.data.isEmpty then none else some v)
  let duplicateFirstSections :=
    (firstSections.dedup.map (fun sec =>
      let c := firstSections.count sec
      if 1 < c then c - 1 else 0)).sum
  if firstSections.isEmpty then penalty1
  else if 0 < duplicateFirstSections then
    penalty1 + duplicateFirstSections * (5 / 100 : ℚ)
  else penalty1

end FA

namespace FA

/-! ## Theorems -/

/-- C10: remove_disallowed_unicode is idempotent for every Unicode table,
every preserve_comma flag and every input string: it is a pure
per-character filter, so every character it emits is admitted again. -/
theorem claim_C10 (U : PyUnicode) (preserveComma : Bool) (s : String) :
    remove_disallowed_unicode U (remove_disallowed_unicode U s preserveComma)
      preserveComma = remove_disallowed_unicode U s preserveComma := by
  simp [remove_disallowed_unicode, List.filter_filter]

set_option maxRecDepth 100000 in
/-- C4 (counterexample): extract_first_section on the Lebanese test address
does not return "street tall zaatar" as claimed; digits are never removed by
this function, so the token 103 (length 3 > 2) survives the final filter. -/
theorem claim_C4_counterexample :
    extract_first_section asciiU lebanonAddress ≠ "street tall zaatar" := by
  decide

set_option maxRecDepth 100000 in
/-- C4 (amended): extract_first_section on the Lebanese test address returns
"street 103": the merge rule fires because "31" is shorter than 4
characters, the token "31" (length 2) is dropped by the length filter, the
token "103" (length 3) is kept, and the result is lowercased. -/
theorem claim_C4 :
    extract_first_section asciiU lebanonAddress = "street 103" := by
  decide

/-- C1 (counterexample): claiming is not a compare-and-set.  With every batch
in status checked, update_batch_status still overwrites the status to
checking (a backward transition), rather than failing or leaving the store
unchanged, refuting the claim that a claim attempt on a non-origin batch
fails or no-ops. -/
theorem claim_C1_counterexample :
    ¬ (∀ (store : Nat → String) (bid : Nat), store bid ≠ "origin" →
        update_batch_status store bid "checking" = store) := by
  intro h
  have h2 := congrFun (h (fun _ => "checked") 0 (by decide)) 0
  simp only [update_batch_status, if_pos rfl] at h2
  exact absurd h2 (by decide)

/-- C1 (amended): the claim step is an unconditional overwrite.
update_batch_status sets the claimed batch to the new status regardless of
its previous status (so two workers that both run process_batch on the same
batch both succeed in writing checking, and a checked batch is moved
backward to checking), leaves every other batch untouched, and only
get_address_batches filters candidates by status origin at read time. -/
theorem claim_C1 (store : Nat → String) (bid : Nat) (st : String) :
    update_batch_status store bid st bid = st ∧
    (∀ j, j ≠ bid → update_batch_status store bid st j = store j) ∧
    process_batch_claim store bid bid = "checking" ∧
    (∀ ids : List Nat, ∀ b ∈ get_address_batches store ids, store b = "origin") := by
  refine ⟨by simp [update_batch_status], fun j hj => by simp [update_batch_status, hj], by simp [process_batch_claim, update_batch_status], ?_⟩
  intro ids b hb
  have := List.of_mem_filter hb
  simpa using this

/-- C1 (witness): the amended claim evaluated on a concrete store holding one
batch in status checked. -/
theorem claim_C1_witness :
    update_batch_status (fun _ => "checked") 0 "checking" 0 = "checking" ∧
    (∀ j, j ≠ 0 → update_batch_status (fun _ => "checked") 0 "checking" j
      = (fun _ : Nat => "checked") j) ∧
    process_batch_claim (fun _ => "checked") 0 0 = "checking" ∧
    (∀ ids : List Nat, ∀ b ∈ get_address_batches (fun _ => "checked") ids,
      (fun _ : Nat => "checked") b = "origin") :=
  claim_C1 (fun _ => "checked") 0 "checking"

/-- C7 (counterexample): when no OSM data file exists the country does not
end in status failed: run_continuous_processing sets processing and then
skips with no further write, so the country stays in processing; and a
processing error with the file present does produce failed.  Both refute the
claim that failed occurs exactly on a missing data source. -/
theorem claim_C7_counterexample :
    ¬ (∀ (store : Nat → String) (cid : Nat) (processOk : Bool),
        run_country_step store cid false processOk cid = "failed") := by
  intro h
  have h2 := h (fun _ => "origin") 0 true
  simp only [run_country_step, update_country_status, Bool.not_true,
    Bool.false_eq_true, if_pos rfl, if_false] at h2
  exact absurd h2 (by decide)

/-- C7 (amended): a claimed country is first set to processing; when no OSM
file is found it is skipped and remains in processing (despite the log text
about keeping origin); processing errors — not the missing data source —
produce failed; successful processing produces completed. -/
theorem claim_C7 (store : Nat → String) (cid : Nat) (processOk : Bool) :
    run_country_step store cid false processOk cid = "processing" ∧
    run_country_step store cid true true cid = "completed" ∧
    run_country_step store cid true false cid = "failed" := by
  refine ⟨?_, ?_, ?_⟩ <;>
    simp [run_country_step, update_country_status]

/-- The retry loop never sleeps exactly 1 second: its delays are the even
numbers (attempt+1)*2. -/
theorem sleep_one_not_mem_queryGo (net : Nat → NetAttempt) :
    ∀ (k a : Nat), Ev.sleep 1 ∉ (queryGo net a k).2 := by
  intro k
  induction k with
  | zero => intro a; simp [queryGo]
  | succ n ih =>
    intro a
    simp only [queryGo]
    cases net a with
    | ok r => simp
    | err =>
      cases hn : (n == 0) with
      | true => simp
      | false =>
        simp only [Bool.false_eq_true, if_false, List.mem_cons, not_or]
        refine ⟨by simp, ?_, ih (a + 1)⟩
        simp only [ne_eq, Ev.sleep.injEq]
        omega

/-- No 1-second sleep appears among the lookup events of an id. -/
theorem sleep_one_not_mem_query (s : IdScript) :
    Ev.sleep 1 ∉ (query_nominatim s).2 := by
  unfold query_nominatim
  by_cases h : s.typeOk <;> simp [h, sleep_one_not_mem_queryGo]

/-- The trace of one id contains the 1-second sleep exactly when the id was
persisted. -/
theorem count_sleep_one_process_id (s : IdScript) :
    ((process_id s).2.filter (fun e => e == Ev.sleep 1)).length
      = (if (process_id s).1 then 1 else 0) := by
  have hq : (query_nominatim s).2.filter (fun e => e == Ev.sleep 1) = [] := by
    rw [List.filter_eq_nil_iff]
    intro e he hb
    have heq : e = Ev.sleep 1 := by simpa using hb
    exact sleep_one_not_mem_query s (heq ▸ he)
  unfold process_id
  cases hr : (query_nominatim s).1 with
  | none => simp only [hr, hq, List.length_nil, Bool.false_eq_true, if_false]
  | some r =>
    simp only [hr]
    by_cases h1 : r.looksLikeAddress
    · by_cases h2 : r.regionOk
      · by_cases h3 : r.place_rank ≤ 20
        · simp [h1, h2, h3, hq]
        · by_cases h4 : r.score < 9
          · simp [h1, h2, h3, h4, hq, List.filter_append]
          · simp [h1, h2, h3, h4, hq, List.filter_append]
      · simp [h1, h2, hq]
    · simp [h1, hq]

/-- C2 (counterexample): the inter-request delay is not enforced for every
pair of consecutive requests.  A batch of two ids whose lookups succeed but
whose results fail the looks_like_address heuristic issues two back-to-back
requests with no sleep between them. -/
theorem claim_C2_counterexample :
    ¬ (∀ (store : Nat → String) (bid : Nat) (ids : List IdScript),
        minGapOneSecond (process_batch_run store bid ids).2.2 = true) := by
  intro h
  have h2 := h (fun _ => "origin") 0 [scriptNotAddress, scriptNotAddress]
  exact absurd h2 (by decide)

/-- C2 (amended): the 1-second sleep is executed exactly once per persisted
record — lookups of skipped or rejected ids and the corroboration query
follow the previous request with no enforced minimum delay, and only the
retry backoff (2·attempt seconds) separates retries of a single lookup. -/
theorem claim_C2 (store : Nat → String) (bid : Nat) (ids : List IdScript) :
    ((process_batch_run store bid ids).2.2.filter
        (fun e => e == Ev.sleep 1)).length
      = (process_batch_run store bid ids).2.1 := by
  simp only [process_batch_run]
  induction ids with
  | nil => simp
  | cons s rest ih =>
    simp only [List.flatMap_cons, List.filter_append, List.length_append,
      List.filter_cons]
    rw [count_sleep_one_process_id s]
    by_cases hs : (process_id s).1 <;> (simp [hs, ih]; try omega)

/-- C3: a record is persisted only when the lookup result has place_rank
strictly above 20 and the corroboration score is at least 0.9; a result with
place_rank at most 20 is never persisted, whatever its score. -/
theorem claim_C3 :
    (∀ s : IdScript, (process_id s).1 = true →
      ∃ r : NomResult, (query_nominatim s).1 = some r ∧
        20 < r.place_rank ∧ 9 ≤ r.score) ∧
    (∀ (s : IdScript) (r : NomResult), (query_nominatim s).1 = some r →
      r.place_rank ≤ 20 → (process_id s).1 = false) := by
  constructor
  · intro s h
    unfold process_id at h
    cases hr : (query_nominatim s).1 with
    | none => rw [hr] at h; simp at h
    | some r =>
      rw [hr] at h
      refine ⟨r, rfl, ?_, ?_⟩ <;>
      · by_cases h1 : r.looksLikeAddress <;>
        by_cases h2 : r.regionOk <;>
        by_cases h3 : r.place_rank ≤ 20 <;>
        by_cases h4 : r.score < 9 <;>
        (simp [h1, h2, h3, h4] at h ⊢; try omega)
  · intro s r hr hrank
    unfold process_id
    rw [hr]
    by_cases h1 : r.looksLikeAddress <;>
    by_cases h2 : r.regionOk <;>
    simp [h1, h2, hrank]

/-- C3 (witness): the acceptance theorem evaluated on a persisted id, and
the rejection theorem evaluated on a result with place_rank 20. -/
theorem claim_C3_witness :
    ((process_id scriptAccepted).1 = true ∧
      ∃ r : NomResult, (query_nominatim scriptAccepted).1 = some r ∧
        20 < r.place_rank ∧ 9 ≤ r.score) ∧
    ((query_nominatim scriptLowRank).1 = some resultLowRank ∧
      resultLowRank.place_rank ≤ 20 ∧
      (process_id scriptLowRank).1 = false) :=
  ⟨⟨by decide, claim_C3.1 scriptAccepted (by decide)⟩,
   ⟨rfl, by decide, claim_C3.2 scriptLowRank resultLowRank rfl (by decide)⟩⟩

/-- C8: the lookup makes at most 3 attempts, its full trace is one of four
shapes whose retry delays are 1·2 and 2·2 seconds, exhaustion of all
attempts yields no result (the id is skipped), a batch always still reaches
status checked, and an id whose attempts all fail contributes nothing to the
persisted count of its batch. -/
theorem claim_C8 (s : IdScript) :
    ((query_nominatim s).2.filter (fun e => e == Ev.req)).length ≤ 3 ∧
    (query_nominatim s).2 ∈
      [([] : List Ev), [.req], [.req, .sleep (1 * 2), .req],
        [.req, .sleep (1 * 2), .req, .sleep (2 * 2), .req]] ∧
    ((∀ a, s.net a = .err) → (query_nominatim s).1 = none) ∧
    (∀ (store : Nat → String) (bid : Nat) (ids : List IdScript),
      (process_batch_run store bid ids).1 bid = "checked") ∧
    (∀ (store : Nat → String) (bid : Nat) (pre post : List IdScript),
      (∀ a, s.net a = .err) →
      (process_batch_run store bid (pre ++ s :: post)).2.1 =
        (process_batch_run store bid (pre ++ post)).2.1) := by
  have hshape : (query_nominatim s).2 ∈
      [([] : List Ev), [.req], [.req, .sleep (1 * 2), .req],
        [.req, .sleep (1 * 2), .req, .sleep (2 * 2), .req]] := by
    unfold query_nominatim
    by_cases ht : s.typeOk
    · simp only [ht, if_true, queryGo]
      cases s.net 0 with
      | ok r => simp
      | err =>
        cases s.net 1 with
        | ok r => simp [queryGo]
        | err =>
          cases s.net 2 with
          | ok r => simp [queryGo]
          | err => simp [queryGo]
    · simp [ht]
  have hnone : (∀ a, s.net a = .err) → (query_nominatim s).1 = none := by
    intro hall
    unfold query_nominatim
    by_cases ht : s.typeOk
    · simp [ht, queryGo, hall 0, hall 1, hall 2]
    · simp [ht]
  refine ⟨?_, hshape, hnone, ?_, ?_⟩
  · simp only [List.mem_cons, List.not_mem_nil, or_false] at hshape
    rcases hshape with h | h | h | h <;> rw [h] <;> decide
  · intro store bid ids
    simp [process_batch_run, update_batch_status]
  · intro store bid pre post hall
    have hsaved : (process_id s).1 = false := by
      unfold process_id
      rw [hnone hall]
    simp [process_batch_run, List.filter_append, List.filter_cons, hsaved]

/-- C8 (witness): the theorem evaluated on the id whose every attempt
raises, inside a batch that also holds an accepted id. -/
theorem claim_C8_witness :
    ((query_nominatim scriptAllErr).2.filter (fun e => e == Ev.req)).length ≤ 3 ∧
    (query_nominatim scriptAllErr).1 = none ∧
    (process_batch_run (fun _ => "origin") 0 [scriptAllErr, scriptAccepted]).1 0
      = "checked" ∧
    (process_batch_run (fun _ => "origin") 0 ([] ++ scriptAllErr :: [scriptAccepted])).2.1
      = (process_batch_run (fun _ => "origin") 0 ([] ++ [scriptAccepted])).2.1 :=
  ⟨(claim_C8 scriptAllErr).1,
   (claim_C8 scriptAllErr).2.2.1 (fun _ => rfl),
   (claim_C8 scriptAllErr).2.2.2.1 (fun _ => "origin") 0 [scriptAllErr, scriptAccepted],
   (claim_C8 scriptAllErr).2.2.2.2 (fun _ => "origin") 0 [] [scriptAccepted]
     (fun _ => rfl)⟩

/-- C9: the duplicate-penalty function returns 0 on the empty variant list
and on every one-element variant list, for every Unicode table: with at most
one normalized address and at most one first section there is no duplicate
in either signal. -/
theorem claim_C9 (U : PyUnicode) (x : String) :
    calculate_address_duplicates_penalty U [] = 0 ∧
    calculate_address_duplicates_penalty U [x] = 0 := by
  constructor
  · simp [calculate_address_duplicates_penalty]
  · unfold calculate_address_duplicates_penalty
    by_cases hn : ¬x.data = [] ∧ ¬(pyStripWs U x).data = [] <;>
      by_cases hf : (extract_first_section U x).data = [] <;>
      simp [hn, hf, List.filterMap_cons, List.dedup_cons_of_not_mem]

/-- C6 (counterexample): the Western Sahara extractor emits some features on
grounds other than geometric containment: a building whose nodes all lie far
outside every include box is still emitted because a tag value contains the
indicator laayoune. -/
theorem claim_C6_counterexample :
    ¬ (∀ (U : PyUnicode) (w : OsmWay), wsWay U w = true →
        w.nodes.any (fun n => n.valid && is_in_western_sahara n.lon n.lat) = true) := by
  intro h
  have h2 := h asciiU wsIndicatorOnlyWay (by decide)
  exact absurd h2 (by decide)

/-- C6 (amended): both extractors emit only features carrying the qualifying
tag set (a building tag plus an address-ish tag); the Palestine extractor
additionally requires a valid constituent node inside an include box (no
exclude boxes are configured), while the Western Sahara extractor accepts
either a valid node inside an include box and outside every exclude box, or
— as a fallback — a Western Sahara indicator among the tag values. -/
theorem claim_C6 :
    (∀ w : OsmWay, palWay w = true →
      tagsHaveKey w.tags "building" = true ∧ has_address_info w.tags = true ∧
      w.nodes.any (fun n => n.valid && is_in_palestine n.lon n.lat) = true) ∧
    (∀ (U : PyUnicode) (w : OsmWay), wsWay U w = true →
      tagsHaveKey w.tags "building" = true ∧ has_address_info w.tags = true ∧
      (w.nodes.any (fun n => n.valid && is_in_western_sahara n.lon n.lat) = true ∨
        has_western_sahara_indicators U w.tags = true)) := by
  constructor
  · intro w h
    simp only [palWay, Bool.and_eq_true] at h
    exact ⟨h.1.1.1.1, h.1.1.1.2, h.1.2⟩
  · intro U w h
    simp only [wsWay, Bool.and_eq_true, Bool.or_eq_true] at h
    exact ⟨h.1.1.1.1, h.1.1.1.2, h.1.2⟩

/-! ### Splitting and joining lemmas for the canonicalizer -/

/-- splitKeep distributes over an append at a separator character. -/
theorem splitKeep_append_sep (p : Char → Bool) {c : Char} (hc : p c = true)
    (a b : List Char) :
    splitKeep p (a ++ c :: b) =
      ((splitKeep p a).1,
        (splitKeep p a).2 ++ (splitKeep p b).1 :: (splitKeep p b).2) := by
  induction a with
  | nil => simp [splitKeep, hc]
  | cons x a ih =>
    simp only [List.cons_append, splitKeep, ih]
    by_cases hx : p x <;> simp [hx, ih]

/-- The nonempty tokens of an append at a separator are the two token
lists joined. -/
theorem tokensP_append_sep (p : Char → Bool) {c : Char} (hc : p c = true)
    (a b : List Char) :
    tokensP p (a ++ c :: b) = tokensP p a ++ tokensP p b := by
  simp only [tokensP, splitAll, splitKeep_append_sep p hc]
  rw [← List.cons_append, List.filter_append]

/-- A leading separator character does not change the token list. -/
theorem tokensP_sep_cons (p : Char → Bool) {c : Char} (hc : p c = true)
    (l : List Char) : tokensP p (c :: l) = tokensP p l := by
  have h := tokensP_append_sep p hc [] l
  simpa [tokensP, splitAll, splitKeep] using h

/-- A leading non-separator character extends the first group. -/
theorem tokensP_nonsep_cons (p : Char → Bool) {c : Char} (hc : p c = false)
    (l : List Char) :
    tokensP p (c :: l) =
      (c :: (splitKeep p l).1) ::
        (splitKeep p l).2.filter (fun t => !t.isEmpty) := by
  simp [tokensP, splitAll, splitKeep, hc]

/-- Tokens of a space-joined list are the tokens of the pieces, for any
splitter that counts the space as a separator. -/
theorem tokensP_join (p : Char → Bool) (hp : p ' ' = true) :
    ∀ xs : List (List Char),
      tokensP p (joinWords xs) = xs.flatMap (tokensP p)
  | [] => by simp [joinWords, tokensP, splitAll, splitKeep]
  | [w] => by simp [joinWords]
  | w :: w2 :: ws => by
    simp only [joinWords, List.flatMap_cons]
    rw [tokensP_append_sep p hp, tokensP_join p hp (w2 :: ws)]
    simp

/-- A function that is empty on empty input and distributes over a space
separator maps a space-join to the space-join of the images. -/
theorem sepHom_join (f : List Char → List Char) (hnil : f [] = [])
    (hsep : ∀ a b, f (a ++ ' ' :: b) = f a ++ ' ' :: f b) :
    ∀ xs : List (List Char), f (joinWords xs) = joinWords (xs.map f)
  | [] => by simpa [joinWords] using hnil
  | [w] => by simp [joinWords]
  | w :: w2 :: ws => by
    simp only [joinWords, List.map_cons]
    rw [hsep, sepHom_join f hnil hsep (w2 :: ws)]
    simp [joinWords]

/-- Dropping leading separators does not change the token list. -/
theorem tokensP_dropWhile (p : Char → Bool) :
    ∀ l : List Char, tokensP p (l.dropWhile p) = tokensP p l
  | [] => rfl
  | c :: l => by
    by_cases hc : p c
    · rw [List.dropWhile_cons_of_pos hc, tokensP_dropWhile p l,
        tokensP_sep_cons p hc]
    · rw [List.dropWhile_cons_of_neg hc]

/-- The head of a dropWhile result fails the predicate. -/
theorem dropWhile_head_false (q : Char → Bool) :
    ∀ (l : List Char) {c : Char} {rest : List Char},
      l.dropWhile q = c :: rest → q c = false
  | [], c, rest => by intro h; simp at h
  | x :: l, c, rest => by
    intro h
    by_cases hx : q x
    · rw [List.dropWhile_cons_of_pos hx] at h
      exact dropWhile_head_false q l h
    · rw [List.dropWhile_cons_of_neg hx] at h
      cases h
      simpa using hx

/-- Every token is nonempty. -/
theorem tokensP_ne_nil {p : Char → Bool} {l : List Char} {t : List Char}
    (ht : t ∈ tokensP p l) : t ≠ [] := by
  have := List.of_mem_filter ht
  simpa using this

/-- Unfolding of joinWords on a cons. -/
theorem joinWords_cons (x : List Char) (ys : List (List Char)) :
    joinWords (x :: ys) = x ++ (if ys.isEmpty then [] else ' ' :: joinWords ys) := by
  cases ys <;> simp [joinWords]

/-- A join of nonempty pieces is empty exactly when there are no pieces. -/
theorem joinWords_eq_nil_of_ne {ts : List (List Char)}
    (h : ∀ t ∈ ts, t ≠ []) : joinWords ts = [] ↔ ts = [] := by
  cases ts with
  | nil => simp [joinWords]
  | cons w ws =>
    rw [joinWords_cons]
    constructor
    · intro he
      rcases List.append_eq_nil.mp he with ⟨hw, _⟩
      exact absurd hw (h w (by simp))
    · intro he
      exact absurd he (by simp)

/-- The current group of splitKeep is empty exactly when the input is empty
or starts with a separator. -/
theorem splitKeep_fst_eq_nil_iff (p : Char → Bool) (l : List Char) :
    (splitKeep p l).1 = [] ↔ (l = [] ∨ leadSpace p l = true) := by
  cases l with
  | nil => simp [splitKeep]
  | cons c rest =>
    by_cases hc : p c <;> simp [splitKeep, leadSpace, hc]

/-- A trailing strip is empty exactly when every character is stripped. -/
theorem stripTrail_eq_nil_iff (p : Char → Bool) :
    ∀ l : List Char, stripTrail p l = [] ↔ ∀ c ∈ l, p c = true
  | [] => by simp [stripTrail]
  | c :: l => by
    simp only [stripTrail]
    cases hs : stripTrail p l with
    | nil =>
      have hl := (stripTrail_eq_nil_iff p l).mp hs
      by_cases hc : p c
      · rw [if_pos hc, List.forall_mem_cons]
        exact ⟨fun _ => ⟨hc, hl⟩, fun _ => rfl⟩
      · rw [if_neg hc, List.forall_mem_cons]
        exact ⟨fun h => absurd h (by simp),
               fun h => absurd h.1 (by simpa using hc)⟩
    | cons r rs =>
      have hl : ¬ ∀ x ∈ l, p x = true := by
        intro hall
        rw [(stripTrail_eq_nil_iff p l).mpr hall] at hs
        exact List.noConfusion hs
      simp only [List.cons_ne_nil, false_iff]
      intro hall
      exact hl (fun x hx => hall x (by simp [hx]))

/-- A dropWhile result never starts with a satisfying character. -/
theorem leadSpace_dropWhile (q : Char → Bool) (l : List Char) :
    leadSpace q (l.dropWhile q) = false := by
  cases hd : l.dropWhile q with
  | nil => rfl
  | cons c rest => simpa [leadSpace] using dropWhile_head_false q l hd

/-- The strip class contains the space. -/
theorem stripSpaceDashColon_space : stripSpaceDashColon ' ' = true := rfl

/-- A character that is no space, hyphen or colon is not stripped. -/
theorem stripSpaceDashColon_eq_false {c : Char}
    (hs : c ≠ ' ') (hd : c ≠ '-') (hc : c ≠ ':') :
    stripSpaceDashColon c = false := by
  simp [stripSpaceDashColon, hs, hd, hc]

/-- Characterization of collapsing followed by a trailing strip: the result
is the space-join of the whitespace tokens, with one leading space kept when
the input led with whitespace and has a token at all.  The input must hold
no hyphen or colon (true after the punctuation stage). -/
theorem stripTrail_collapse (U : PyUnicode) (h6 : U.isSpace ' ' = true) :
    ∀ (n : Nat) (m : List Char), m.length ≤ n →
      (∀ c ∈ m, c ≠ '-' ∧ c ≠ ':') →
      stripTrail stripSpaceDashColon (collapseWs U m) =
        (if leadSpace U.isSpace m && !(tokensP U.isSpace m).isEmpty
         then [' '] else [])
          ++ joinWords (tokensP U.isSpace m) := by
  intro n
  induction n with
  | zero =>
    intro m hm _
    rw [List.length_eq_zero.mp (Nat.le_zero.mp hm)]
    simp [collapseWs, stripTrail, tokensP, splitAll, splitKeep, leadSpace, joinWords]
  | succ n ih =>
    intro m hlen hm
    cases m with
    | nil =>
      simp [collapseWs, stripTrail, tokensP, splitAll, splitKeep, leadSpace, joinWords]
    | cons c rest =>
      have hmr : ∀ x ∈ rest, x ≠ '-' ∧ x ≠ ':' :=
        fun x hx => hm x (List.mem_cons_of_mem c hx)
      by_cases hc : U.isSpace c = true
      · rw [show collapseWs U (c :: rest) =
            ' ' :: collapseWs U (rest.dropWhile U.isSpace) by
          simp [collapseWs, hc]]
        have hd : (rest.dropWhile U.isSpace).length ≤ n :=
          le_trans (List.dropWhile_sublist _).length_le
            (Nat.le_of_succ_le_succ hlen)
        have hmd : ∀ x ∈ rest.dropWhile U.isSpace, x ≠ '-' ∧ x ≠ ':' :=
          fun x hx => hmr x ((List.dropWhile_sublist _).mem hx)
        have hIH := ih (rest.dropWhile U.isSpace) hd hmd
        rw [leadSpace_dropWhile, tokensP_dropWhile] at hIH
        simp only [Bool.false_and, if_false, List.nil_append] at hIH
        have htoks : tokensP U.isSpace (c :: rest) = tokensP U.isSpace rest :=
          tokensP_sep_cons _ hc rest
        cases hj : joinWords (tokensP U.isSpace rest) with
        | nil =>
          have htn : tokensP U.isSpace rest = [] :=
            (joinWords_eq_nil_of_ne (fun t ht => tokensP_ne_nil ht)).mp hj
          rw [show stripTrail stripSpaceDashColon
                (' ' :: collapseWs U (rest.dropWhile U.isSpace)) = [] by
            simp only [stripTrail]
            rw [hIH, hj]
            simp [stripSpaceDashColon]]
          simp [htoks, htn, joinWords]
        | cons r rs =>
          rw [show stripTrail stripSpaceDashColon
                (' ' :: collapseWs U (rest.dropWhile U.isSpace)) =
                ' ' :: r :: rs by
            simp only [stripTrail]
            rw [hIH, hj]
            simp]
          have hne : tokensP U.isSpace rest ≠ [] := by
            intro h0
            rw [h0] at hj
            simp [joinWords] at hj
          rw [htoks, hj]
          simp [leadSpace, hc, hne, List.isEmpty_iff]
      · rw [show collapseWs U (c :: rest) = c :: collapseWs U rest by
          simp [collapseWs, hc]]
        have hcs : c ≠ ' ' := by
          intro he
          rw [he] at hc
          exact hc h6
        have hsc : stripSpaceDashColon c = false :=
          stripSpaceDashColon_eq_false hcs (hm c (by simp)).1 (hm c (by simp)).2
        have hIH := ih rest (Nat.le_of_succ_le_succ hlen) hmr
        have htoks := tokensP_nonsep_cons U.isSpace
          (by simpa using hc) rest
        rw [htoks]
        rw [Bool.not_eq_true] at hc
        simp only [leadSpace, hc, Bool.false_and, Bool.false_eq_true,
          if_false, List.nil_append]
        rw [joinWords_cons]
        cases hst : stripTrail stripSpaceDashColon (collapseWs U rest) with
        | nil =>
          rw [show stripTrail stripSpaceDashColon (c :: collapseWs U rest)
                = [c] by
            simp only [stripTrail]
            rw [hst, hsc]
            simp]
          rw [hst] at hIH
          have hj0 : joinWords (tokensP U.isSpace rest) = [] := by
            rcases List.append_eq_nil.mp hIH.symm with ⟨_, h2⟩
            exact h2
          have htn : tokensP U.isSpace rest = [] :=
            (joinWords_eq_nil_of_ne (fun t ht => tokensP_ne_nil ht)).mp hj0
          have hfil := htn
          unfold tokensP splitAll at hfil
          have hg : (splitKeep U.isSpace rest).1 = [] ∧
              (splitKeep U.isSpace rest).2.filter (fun t => !t.isEmpty) = [] := by
            have := List.filter_eq_nil_iff.mp hfil
            constructor
            · have h1 := this (splitKeep U.isSpace rest).1 (by simp)
              simpa using h1
            · rw [List.filter_eq_nil_iff]
              intro t ht
              exact this t (by simp [ht])
          rw [hg.1, hg.2]
          simp
        | cons r rs =>
          rw [show stripTrail stripSpaceDashColon (c :: collapseWs U rest)
                = c :: r :: rs by
            simp only [stripTrail]
            rw [hst]]
          rw [← hst, hIH]
          by_cases hg : (splitKeep U.isSpace rest).1 = []
          · have hlead : leadSpace U.isSpace rest = true := by
              rcases (splitKeep_fst_eq_nil_iff _ _).mp hg with h0 | h0
              · subst h0
                rw [show collapseWs U ([] : List Char) = [] by
                    simp [collapseWs]] at hst
                simp [stripTrail] at hst
              · exact h0
            have htr : tokensP U.isSpace rest =
                (splitKeep U.isSpace rest).2.filter (fun t => !t.isEmpty) := by
              unfold tokensP splitAll
              rw [hg]
              simp
            have hfne : (splitKeep U.isSpace rest).2.filter
                (fun t => !t.isEmpty) ≠ [] := by
              intro h0
              rw [htr, h0] at hIH
              simp [hlead, joinWords] at hIH
              rw [hIH] at hst
              exact List.noConfusion hst
            rw [hg, htr]
            simp [hlead, hfne, List.isEmpty_iff]
          · have hlead : leadSpace U.isSpace rest = false := by
              rcases hl : leadSpace U.isSpace rest with _ | _
              · rfl
              · exact absurd ((splitKeep_fst_eq_nil_iff _ _).mpr (Or.inr hl)) hg
            have htr : tokensP U.isSpace rest =
                (splitKeep U.isSpace rest).1 ::
                  (splitKeep U.isSpace rest).2.filter (fun t => !t.isEmpty) := by
              unfold tokensP splitAll
              simp [List.filter_cons, List.isEmpty_iff, hg]
            rw [htr]
            simp only [hlead, Bool.false_and, if_false, List.nil_append]
            rw [joinWords_cons]
            simp

/-- Collapsing whitespace and stripping both ends yields exactly the
space-joined whitespace tokens. -/
theorem pyStrip_collapse (U : PyUnicode) (h6 : U.isSpace ' ' = true)
    (m : List Char) (hm : ∀ c ∈ m, c ≠ '-' ∧ c ≠ ':') :
    pyStrip stripSpaceDashColon (collapseWs U m) =
      joinWords (tokensP U.isSpace m) := by
  cases m with
  | nil => simp [collapseWs, pyStrip, stripTrail, tokensP, splitAll, splitKeep, joinWords]
  | cons c rest =>
    have hmr : ∀ x ∈ rest, x ≠ '-' ∧ x ≠ ':' :=
      fun x hx => hm x (List.mem_cons_of_mem c hx)
    by_cases hc : U.isSpace c = true
    · rw [show collapseWs U (c :: rest) =
          ' ' :: collapseWs U (rest.dropWhile U.isSpace) by
        simp [collapseWs, hc]]
      have hmd : ∀ x ∈ rest.dropWhile U.isSpace, x ≠ '-' ∧ x ≠ ':' :=
        fun x hx => hmr x ((List.dropWhile_sublist _).mem hx)
      have htoks : tokensP U.isSpace (c :: rest) =
          tokensP U.isSpace (rest.dropWhile U.isSpace) := by
        rw [tokensP_dropWhile, tokensP_sep_cons _ hc]
      rw [htoks]
      unfold pyStrip
      cases hd : rest.dropWhile U.isSpace with
      | nil =>
        simp [collapseWs, stripSpaceDashColon, stripTrail, tokensP,
          splitAll, splitKeep, joinWords]
      | cons e d =>
        have he : U.isSpace e = false := dropWhile_head_false _ rest hd
        have hes : e ≠ ' ' := by
          intro h0
          rw [h0] at he
          rw [he] at h6
          exact Bool.noConfusion h6
        have hme : e ∈ rest.dropWhile U.isSpace := by rw [hd]; simp
        have hse : stripSpaceDashColon e = false :=
          stripSpaceDashColon_eq_false hes (hmd e hme).1 (hmd e hme).2
        rw [show collapseWs U (e :: d) = e :: collapseWs U d by
          simp [collapseWs, he]]
        rw [show List.dropWhile (fun c => stripSpaceDashColon c)
              (' ' :: e :: collapseWs U d) = e :: collapseWs U d by
          rw [List.dropWhile_cons_of_pos (by simp [stripSpaceDashColon]),
            List.dropWhile_cons_of_neg (by simp [hse])]]
        have hst := stripTrail_collapse U h6 (e :: d).length (e :: d)
          le_rfl (by rw [← hd]; exact hmd)
        rw [show collapseWs U (e :: d) = e :: collapseWs U d by
          simp [collapseWs, he]] at hst
        rw [hst]
        simp [leadSpace, he]
    · rw [show collapseWs U (c :: rest) = c :: collapseWs U rest by
        simp [collapseWs, hc]]
      have hcs : c ≠ ' ' := by
        intro he
        rw [he] at hc
        exact hc h6
      have hsc : stripSpaceDashColon c = false :=
        stripSpaceDashColon_eq_false hcs (hm c (by simp)).1 (hm c (by simp)).2
      unfold pyStrip
      rw [List.dropWhile_cons_of_neg (by simp [hsc])]
      have hst := stripTrail_collapse U h6 (c :: rest).length (c :: rest)
        le_rfl hm
      rw [show collapseWs U (c :: rest) = c :: collapseWs U rest by
        simp [collapseWs, hc]] at hst
      rw [hst]
      rw [Bool.not_eq_true] at hc
      simp [leadSpace, hc]

/-- dropWhile over an append. -/
theorem dropWhile_append_char (q : Char → Bool) (a b : List Char) :
    (a ++ b).dropWhile q =
      if (a.dropWhile q).isEmpty then b.dropWhile q else a.dropWhile q ++ b := by
  induction a with
  | nil => simp
  | cons c a ih =>
    by_cases hc : q c
    · rw [List.cons_append, List.dropWhile_cons_of_pos hc,
        List.dropWhile_cons_of_pos hc, ih]
    · rw [List.cons_append, List.dropWhile_cons_of_neg hc,
        List.dropWhile_cons_of_neg hc]
      simp

/-- Digit-run replacement distributes over a space separator, the space not
being a digit. -/
theorem digitRuns_append_sep (U : PyUnicode) (h5 : U.isDigit ' ' = false) :
    ∀ (n : Nat) (a : List Char), a.length ≤ n → ∀ b : List Char,
      digitRunsToSpace U (a ++ ' ' :: b) =
        digitRunsToSpace U a ++ ' ' :: digitRunsToSpace U b := by
  intro n
  induction n with
  | zero =>
    intro a ha b
    rw [List.length_eq_zero.mp (Nat.le_zero.mp ha)]
    simp [digitRunsToSpace, h5]
  | succ n ih =>
    intro a ha b
    cases a with
    | nil => simp [digitRunsToSpace, h5]
    | cons c a =>
      have ha' : a.length ≤ n := Nat.le_of_succ_le_succ ha
      by_cases hc : U.isDigit c
      · rw [show digitRunsToSpace U (c :: a ++ ' ' :: b) =
            ' ' :: digitRunsToSpace U ((a ++ ' ' :: b).dropWhile U.isDigit) by
          simp [digitRunsToSpace, hc]]
        rw [show digitRunsToSpace U (c :: a) =
            ' ' :: digitRunsToSpace U (a.dropWhile U.isDigit) by
          simp [digitRunsToSpace, hc]]
        rw [dropWhile_append_char]
        cases hda : a.dropWhile U.isDigit with
        | nil =>
          simp [digitRunsToSpace, h5]
        | cons e es =>
          simp only [List.isEmpty_cons, Bool.false_eq_true, if_false]
          have hlen2 : (e :: es).length ≤ n :=
            le_trans (hda ▸ (List.dropWhile_sublist _).length_le) ha'
          rw [ih (e :: es) hlen2 b]
          simp
      · rw [show digitRunsToSpace U (c :: a ++ ' ' :: b) =
            c :: digitRunsToSpace U (a ++ ' ' :: b) by
          simp [digitRunsToSpace, hc]]
        rw [show digitRunsToSpace U (c :: a) =
            c :: digitRunsToSpace U a by
          simp [digitRunsToSpace, hc]]
        rw [ih a ha' b]
        simp

/-- Filtering by a predicate false on the space distributes over a join. -/
theorem filter_joinWords (q : Char → Bool) (hq : q ' ' = false) :
    ∀ ts : List (List Char),
      (joinWords ts).filter q = ts.flatMap (fun t => t.filter q)
  | [] => by simp [joinWords]
  | [w] => by simp [joinWords]
  | w :: w2 :: ws => by
    rw [show joinWords (w :: w2 :: ws) = w ++ ' ' :: joinWords (w2 :: ws)
      from rfl]
    rw [List.filter_append, List.filter_cons]
    rw [filter_joinWords q hq (w2 :: ws)]
    simp [hq]

/-- A character of a join is a separator space (which only exists with two
or more words) or lies in some word. -/
theorem mem_joinWords_imp {c : Char} :
    ∀ {ts : List (List Char)}, c ∈ joinWords ts →
      (c = ' ' ∧ 2 ≤ ts.length) ∨ ∃ w ∈ ts, c ∈ w
  | [], h => by simp [joinWords] at h
  | [w], h => by
    right
    exact ⟨w, by simp, by simpa [joinWords] using h⟩
  | w :: w2 :: ws, h => by
    rw [show joinWords (w :: w2 :: ws) = w ++ ' ' :: joinWords (w2 :: ws)
      from rfl] at h
    rcases List.mem_append.mp h with h1 | h1
    · exact Or.inr ⟨w, by simp, h1⟩
    · rcases List.mem_cons.mp h1 with h2 | h2
      · exact Or.inl ⟨h2, by simp⟩
      · rcases mem_joinWords_imp h2 with ⟨h3, _⟩ | ⟨x, hx, hcx⟩
        · exact Or.inl ⟨h3, by simp⟩
        · exact Or.inr ⟨x, by simp [List.mem_cons.mpr (Or.inr hx)], hcx⟩

/-- A character of a word is a character of the join. -/
theorem mem_joinWords_of_mem {c : Char} :
    ∀ {ts : List (List Char)} {w : List Char}, w ∈ ts → c ∈ w →
      c ∈ joinWords ts
  | [], w, hw, _ => by simp at hw
  | [x], w, hw, hc => by
    rw [List.mem_singleton.mp hw] at hc
    simpa [joinWords] using hc
  | x :: x2 :: xs, w, hw, hc => by
    rw [show joinWords (x :: x2 :: xs) = x ++ ' ' :: joinWords (x2 :: xs)
      from rfl]
    rcases List.mem_cons.mp hw with h1 | h1
    · exact List.mem_append.mpr (Or.inl (h1 ▸ hc))
    · exact List.mem_append.mpr
        (Or.inr (List.mem_cons.mpr (Or.inr (mem_joinWords_of_mem h1 hc))))

/-- A join of two or more words contains the separator space. -/
theorem space_mem_joinWords :
    ∀ {ts : List (List Char)}, 2 ≤ ts.length → ' ' ∈ joinWords ts := by
  intro ts h
  match ts, h with
  | w :: w2 :: ws, _ =>
    rw [show joinWords (w :: w2 :: ws) = w ++ ' ' :: joinWords (w2 :: ws)
      from rfl]
    simp

/-- Python strip() yields the empty string exactly when every character is
whitespace. -/
theorem pyStrip_eq_nil_iff (p : Char → Bool) (l : List Char) :
    pyStrip p l = [] ↔ ∀ c ∈ l, p c = true := by
  unfold pyStrip
  rw [stripTrail_eq_nil_iff]
  constructor
  · intro h c hc
    rcases List.mem_append.mp ((List.takeWhile_append_dropWhile (p := p) (l := l)) ▸ hc) with h1 | h1
    · exact List.mem_takeWhile_imp h1
    · exact h c h1
  · intro h c hc
    exact h c ((List.dropWhile_sublist _).mem hc)

/-- The admission filter always keeps the space (it is in the allowed
character string, whatever category the table assigns it). -/
theorem keepChar_space (U : PyUnicode) (pc : Bool) :
    keepChar U pc ' ' = true := by
  have hex : excludedBlock ' ' = false := by decide
  by_cases hL : catStartsWith (U.category ' ') 'L' <;>
    by_cases hM : catStartsWith (U.category ' ') 'M' <;>
    cases pc <;>
    simp [keepChar, hex, hL, hM] <;> decide

/-- The punctuation stage never emits a hyphen or colon: both are in the
replaced class. -/
theorem mem_punctToSpace_ne {c : Char} {l : List Char}
    (hc : c ∈ punctToSpace l) : c ≠ '-' ∧ c ≠ ':' := by
  rcases List.mem_map.mp hc with ⟨x, _, he⟩
  by_cases hpx : punct_chars.contains x
  · rw [if_pos hpx] at he
    rw [← he]
    exact ⟨by decide, by decide⟩
  · rw [if_neg hpx] at he
    rw [← he]
    constructor <;> intro h0 <;> rw [h0] at hpx <;> exact hpx (by decide)

/-- The pre-collapse composite distributes over appends. -/
theorem preStages_append (U : PyUnicode) (a b : List Char) :
    preStages U (a ++ b) = preStages U a ++ preStages U b := by
  simp [preStages, punctToSpace, pyLower, stripCombining, nfkdStr,
    List.filter_append, List.flatMap_append, List.map_append]

/-- The pre-collapse composite fixes the space. -/
theorem preStages_space (U : PyUnicode)
    (h1 : U.nfkd ' ' = [' ']) (h2 : U.combining ' ' = 0)
    (h3 : U.lower ' ' = [' ']) : preStages U [' '] = [' '] := by
  have hk : keepChar U false ' ' = true := keepChar_space U false
  simp [preStages, nfkdStr, stripCombining, pyLower, punctToSpace,
    hk, h1, h2, h3, show punct_chars.contains ' ' = false by decide]

/-- The pre-collapse composite distributes over a space separator. -/
theorem preStages_sep (U : PyUnicode)
    (h1 : U.nfkd ' ' = [' ']) (h2 : U.combining ' ' = 0)
    (h3 : U.lower ' ' = [' ']) (a b : List Char) :
    preStages U (a ++ ' ' :: b) = preStages U a ++ ' ' :: preStages U b := by
  rw [show a ++ ' ' :: b = a ++ ([' '] ++ b) from rfl,
    preStages_append, preStages_append, preStages_space U h1 h2 h3]
  simp

/-- Per-character transliteration distributes over a space separator. -/
theorem unidecStr_sep (U : PyUnicode) (h4 : U.unidec ' ' = [' '])
    (a b : List Char) :
    unidecStr U (a ++ ' ' :: b) = unidecStr U a ++ ' ' :: unidecStr U b := by
  rw [show a ++ ' ' :: b = a ++ ([' '] ++ b) from rfl]
  simp [unidecStr, List.flatMap_append, h4]

/-- Comma replacement distributes over a space separator. -/
theorem commaToSpace_sep (a b : List Char) :
    commaToSpace (a ++ ' ' :: b) = commaToSpace a ++ ' ' :: commaToSpace b := by
  simp [commaToSpace]

/-- The parts stage of the canonicalizer over a space-join of words is the
concatenation of the per-word contributions. -/
theorem partsOf_join (U : PyUnicode)
    (h1 : U.nfkd ' ' = [' ']) (h2 : U.combining ' ' = 0)
    (h3 : U.lower ' ' = [' ']) (h4 : U.unidec ' ' = [' '])
    (h5 : U.isDigit ' ' = false) (h6 : U.isSpace ' ' = true)
    (xs : List (List Char)) :
    partsOf U (joinWords xs) = xs.flatMap (wordFingerprintTokens U) := by
  unfold partsOf
  rw [sepHom_join (preStages U) rfl (preStages_sep U h1 h2 h3) xs]
  have hnodash : ∀ c ∈ joinWords (xs.map (preStages U)), c ≠ '-' ∧ c ≠ ':' := by
    intro c hc
    rcases mem_joinWords_imp hc with ⟨h0, _⟩ | ⟨w, hw, hcw⟩
    · rw [h0]; exact ⟨by decide, by decide⟩
    · rcases List.mem_map.mp hw with ⟨x, _, hx⟩
      exact mem_punctToSpace_ne (hx ▸ hcw : c ∈ punctToSpace _)
  rw [pyStrip_collapse U h6 _ hnodash]
  rw [tokensP_join U.isSpace h6 (xs.map (preStages U))]
  rw [sepHom_join (unidecStr U) rfl (unidecStr_sep U h4) _]
  rw [sepHom_join (digitRunsToSpace U) (by simp [digitRunsToSpace])
    (fun a b => digitRuns_append_sep U h5 a.length a le_rfl b) _]
  rw [sepHom_join commaToSpace rfl commaToSpace_sep _]
  rw [tokensP_join (fun c => c == ' ') rfl _]
  rw [List.map_map, List.map_map, List.flatMap_map, List.flatMap_map,
    List.flatMap_assoc]
  unfold wordFingerprintTokens
  simp [Function.comp]

/-- The fingerprint tail depends on the parts list only through its
multiset: it filters, deduplicates, extracts and sorts. -/
theorem fingerprintFromParts_perm (U : PyUnicode)
    (h7 : U.isWordND ' ' = false)
    {parts1 parts2 : List (List Char)} (hp : parts1.Perm parts2) :
    fingerprintFromParts U parts1 = fingerprintFromParts U parts2 := by
  unfold fingerprintFromParts
  have hd : (parts1.filter (fun p => 3 < p.length)).dedup.Perm
      (parts2.filter (fun p => 3 < p.length)).dedup :=
    (hp.filter _).dedup
  have hletters :
      ((joinWords (parts1.filter (fun p => 3 < p.length)).dedup).filter
        U.isWordND).Perm
      ((joinWords (parts2.filter (fun p => 3 < p.length)).dedup).filter
        U.isWordND) := by
    rw [filter_joinWords U.isWordND h7, filter_joinWords U.isWordND h7]
    exact hd.flatMap_right _
  have hlow :
      (((joinWords (parts1.filter (fun p => 3 < p.length)).dedup).filter
          U.isWordND).filter
        (fun c => !excluded_modifier_letters.contains c)).map U.lower
      |>.Perm
      ((((joinWords (parts2.filter (fun p => 3 < p.length)).dedup).filter
          U.isWordND).filter
        (fun c => !excluded_modifier_letters.contains c)).map U.lower) :=
    (hletters.filter _).map _
  have hsorted := List.eq_of_perm_of_sorted
    (((List.perm_insertionSort (· ≤ ·) _).trans hlow).trans
      (List.perm_insertionSort (· ≤ ·) _).symm)
    (List.sorted_insertionSort _ _) (List.sorted_insertionSort _ _)
  rw [hsorted]

/-- A join is the empty list exactly for no words or one empty word. -/
theorem joinWords_eq_nil_iff :
    ∀ xs : List (List Char), joinWords xs = [] ↔ xs = [] ∨ xs = [[]]
  | [] => by simp [joinWords]
  | [w] => by
    cases w <;> simp [joinWords]
  | w :: w2 :: ws => by
    constructor
    · intro h
      rw [show joinWords (w :: w2 :: ws) = w ++ ' ' :: joinWords (w2 :: ws)
        from rfl] at h
      rcases List.append_eq_nil.mp h with ⟨_, h2⟩
      exact List.noConfusion h2
    · intro h
      rcases h with h | h <;> simp at h

/-- Every character of a join satisfies p exactly when every word character
does and, with two or more words, the separator space does. -/
theorem forall_mem_joinWords (p : Char → Bool) (xs : List (List Char)) :
    (∀ c ∈ joinWords xs, p c = true) ↔
      ((∀ w ∈ xs, ∀ c ∈ w, p c = true) ∧ (2 ≤ xs.length → p ' ' = true)) := by
  constructor
  · intro h
    exact ⟨fun w hw c hc => h c (mem_joinWords_of_mem hw hc),
           fun h2 => h ' ' (space_mem_joinWords h2)⟩
  · rintro ⟨hw, hsp⟩ c hc
    rcases mem_joinWords_imp hc with ⟨h0, hlen⟩ | ⟨w, hw', hc'⟩
    · rw [h0]; exact hsp hlen
    · exact hw w hw' c hc'

/-- The truthiness guard of the canonicalizer (empty or whitespace-only
input) is invariant under word-level permutation. -/
theorem guard_perm (U : PyUnicode) {ws ws' : List String}
    (hperm : ws.Perm ws') :
    ((joinWordsStr ws).data.isEmpty ||
        (pyStripWs U (joinWordsStr ws)).data.isEmpty)
      = ((joinWordsStr ws').data.isEmpty ||
        (pyStripWs U (joinWordsStr ws')).data.isEmpty) := by
  have haux : ∀ (a b : List String), a.Perm b →
      (joinWords (a.map String.data) = [] ∨
        pyStrip U.isSpace (joinWords (a.map String.data)) = []) →
      (joinWords (b.map String.data) = [] ∨
        pyStrip U.isSpace (joinWords (b.map String.data)) = []) := by
    intro a b hab h
    have hm : (a.map String.data).Perm (b.map String.data) := hab.map _
    rcases h with h | h
    · left
      rcases (joinWords_eq_nil_iff _).mp h with h0 | h0
      · rw [(joinWords_eq_nil_iff _).mpr]
        left
        rw [h0] at hm
        exact (List.Perm.nil_eq hm).symm
      · rw [(joinWords_eq_nil_iff _).mpr]
        right
        rw [h0] at hm
        exact (List.perm_singleton.mp hm.symm)
    · right
      rw [pyStrip_eq_nil_iff] at h ⊢
      rw [forall_mem_joinWords] at h ⊢
      refine ⟨fun w hw c hc => h.1 w (hm.mem_iff.mpr hw) c hc, ?_⟩
      intro hlen
      exact h.2 (by rw [hm.length_eq]; exact hlen)
  have h1 := haux ws ws' hperm
  have h2 := haux ws' ws hperm.symm
  rw [Bool.eq_iff_iff]
  simp only [Bool.or_eq_true, List.isEmpty_iff, joinWordsStr, pyStripWs]
  exact ⟨fun h => h1 h, fun h => h2 h⟩

/-- C5: the canonicalizer is order-invariant at the word level: joining the
same multiset of words in any two orders yields the same fingerprint.  The
hypotheses pin down the behaviour of the external Unicode primitives on the
single separator character (the space decomposes, lowercases, transliterates
to itself, is no combining mark, no digit, no word character, and is
whitespace), which is how the real Python tables behave. -/
theorem claim_C5 (U : PyUnicode) (ws ws' : List String) (hperm : ws.Perm ws')
    (h1 : U.nfkd ' ' = [' ']) (h2 : U.combining ' ' = 0)
    (h3 : U.lower ' ' = [' ']) (h4 : U.unidec ' ' = [' '])
    (h5 : U.isDigit ' ' = false) (h6 : U.isSpace ' ' = true)
    (h7 : U.isWordND ' ' = false) :
    normalize_address_for_deduplication U (joinWordsStr ws)
      = normalize_address_for_deduplication U (joinWordsStr ws') := by
  have hxs : (ws.map String.data).Perm (ws'.map String.data) := hperm.map _
  have hguard := guard_perm U hperm
  have hbodyL : normalize_address_for_deduplication U (joinWordsStr ws)
      = if ((joinWordsStr ws).data.isEmpty ||
            (pyStripWs U (joinWordsStr ws)).data.isEmpty) then ""
        else fingerprintFromParts U (partsOf U (joinWordsStr ws).data) := rfl
  have hbodyR : normalize_address_for_deduplication U (joinWordsStr ws')
      = if ((joinWordsStr ws').data.isEmpty ||
            (pyStripWs U (joinWordsStr ws')).data.isEmpty) then ""
        else fingerprintFromParts U (partsOf U (joinWordsStr ws').data) := rfl
  rw [hbodyL, hbodyR, hguard]
  by_cases hg : ((joinWordsStr ws').data.isEmpty ||
      (pyStripWs U (joinWordsStr ws')).data.isEmpty) = true
  · rw [if_pos hg, if_pos hg]
  · rw [if_neg hg, if_neg hg]
    have hpL : partsOf U (joinWordsStr ws).data
        = (ws.map String.data).flatMap (wordFingerprintTokens U) :=
      partsOf_join U h1 h2 h3 h4 h5 h6 (ws.map String.data)
    have hpR : partsOf U (joinWordsStr ws').data
        = (ws'.map String.data).flatMap (wordFingerprintTokens U) :=
      partsOf_join U h1 h2 h3 h4 h5 h6 (ws'.map String.data)
    rw [hpL, hpR]
    exact fingerprintFromParts_perm U h7 (hxs.flatMap_right _)

/-- C5 (witness): the invariance applied to the swap of two concrete words
under the ASCII tables. -/
theorem claim_C5_witness :
    normalize_address_for_deduplication asciiU (joinWordsStr ["alpha", "beta"])
      = normalize_address_for_deduplication asciiU
          (joinWordsStr ["beta", "alpha"]) :=
  claim_C5 asciiU ["alpha", "beta"] ["beta", "alpha"]
    (List.Perm.swap "beta" "alpha" [])
    rfl rfl (by decide) rfl (by decide) rfl (by decide)

/-- C6 (witness): the Palestine half evaluated on a Gaza house, the Western
Sahara half evaluated on the indicator-only building. -/
theorem claim_C6_witness :
    (tagsHaveKey gazaWay.tags "building" = true ∧
      has_address_info gazaWay.tags = true ∧
      gazaWay.nodes.any (fun n => n.valid && is_in_palestine n.lon n.lat) = true) ∧
    (tagsHaveKey wsIndicatorOnlyWay.tags "building" = true ∧
      has_address_info wsIndicatorOnlyWay.tags = true ∧
      (wsIndicatorOnlyWay.nodes.any
          (fun n => n.valid && is_in_western_sahara n.lon n.lat) = true ∨
        has_western_sahara_indicators asciiU wsIndicatorOnlyWay.tags = true)) :=
  ⟨claim_C6.1 gazaWay (by decide),
   claim_C6.2 asciiU wsIndicatorOnlyWay (by decide)⟩

end FA
